import Mathlib

/-!
Shallow embedding of `src/utils/apicParser.ts`, a text-to-text pipeline that
parses switch-fabric diagnostic output and reconciles VLAN path allowances.

JavaScript strings are modelled as `String` / `List Char`; the fixed regular
expressions of the source are modelled by hand-written matchers implementing
the engine semantics the source relies on: leftmost match wins, quantifiers
are greedy with backtracking, `/i` literals compare case-insensitively
(case folding is the basic-latin folding of `Char.toLower`, matching the
source's ASCII inputs). JavaScript `Set` insertion order is modelled by
append-if-absent lists. All functions are total; `null` becomes `Option`.
-/

namespace Apic

/-- JS `\s` on the source's inputs: whitespace test for trimming and `\s+`. -/
def isWs (c : Char) : Bool := c.isWhitespace

/-- JS `\w` word-character class `[A-Za-z0-9_]`, used for `\b` boundaries. -/
def isWordChar (c : Char) : Bool := c.isAlphanum || c == '_'

/-- The character class `[\d-]` appearing in the path patterns. -/
def isClassChar (c : Char) : Bool := c.isDigit || c == '-'

/-- `String.prototype.trim`: drop whitespace from both ends (char-list form). -/
def trimChars (s : List Char) : List Char :=
  ((s.dropWhile isWs).reverse.dropWhile isWs).reverse

/-- `split('\n')`: split a char list on newline characters; never empty. -/
def splitOnNl : List Char → List (List Char)
  | [] => [[]]
  | c :: rest =>
    let r := splitOnNl rest
    if c = '\n' then [] :: r
    else
      match r with
      | h :: t => (c :: h) :: t
      | [] => [[c]]

/-- `input.trim().split('\n')` from the source, as char-list lines. -/
def toLines (input : String) : List (List Char) :=
  splitOnNl (trimChars input.toList)

/-- Consume a literal case-insensitively (an `/i` literal); return the rest. -/
def litCI : List Char → List Char → Option (List Char)
  | [], s => some s
  | _, [] => none
  | l :: ls, c :: cs => if l.toLower == c.toLower then litCI ls cs else none

/-- Consume a literal case-sensitively; return the rest. -/
def lit : List Char → List Char → Option (List Char)
  | [], s => some s
  | _, [] => none
  | l :: ls, c :: cs => if l == c then lit ls cs else none

/-- Split off the maximal run of characters satisfying `p` (a greedy class). -/
def takeWhileSplit (p : Char → Bool) : List Char → List Char × List Char
  | [] => ([], [])
  | c :: rest =>
    if p c then
      let (a, b) := takeWhileSplit p rest
      (c :: a, b)
    else ([], c :: rest)

/-- Greedy `cls*` then a continuation, with regex backtracking: longer runs
are preferred, shorter runs are tried when the continuation fails. -/
def starThen (cls : Char → Bool) (cont : List Char → Option (List Char)) :
    List Char → Option (List Char)
  | [] => cont []
  | c :: rest =>
    if cls c then
      match starThen cls cont rest with
      | some r => some r
      | none => cont (c :: rest)
    else cont (c :: rest)

/-- Greedy `cls+` then a continuation, with regex backtracking. -/
def plusThen (cls : Char → Bool) (cont : List Char → Option (List Char)) :
    List Char → Option (List Char)
  | [] => none
  | c :: rest => if cls c then starThen cls cont rest else none

/-! ### `parseEndpointOutput` (source lines 23-62) -/

/-- One attempt of `/vlan-(\d+)/i` anchored at the current position:
the literal `vlan-` then the greedy digit capture. -/
def tryVlanAt (s : List Char) : Option String :=
  match litCI "vlan-".toList s with
  | none => none
  | some r =>
    if ((takeWhileSplit Char.isDigit r).1).isEmpty then none
    else some (String.mk ((takeWhileSplit Char.isDigit r).1))

/-- Scan for the leftmost match of `/vlan-(\d+)/i`; capture the digits. -/
def findVlanAux : List Char → Option String
  | [] => none
  | c :: rest =>
    match tryVlanAt (c :: rest) with
    | some v => some v
    | none => findVlanAux rest

/-- `line.match(/vlan-(\d+)/i)`, returning the digit capture. -/
def findVlan (line : List Char) : Option String := findVlanAux line

/-- One attempt of `/vpc\s+([\d-]+-VPC-[\d-]+-PG)/i` anchored at the current
position; returns the group-1 capture. -/
def tryFormat1At (s : List Char) : Option String :=
  match litCI "vpc".toList s with
  | none => none
  | some [] => none
  | some (c :: rest) =>
    if isWs c then
      let r2 := (takeWhileSplit isWs rest).2
      match plusThen isClassChar (fun r3 =>
          match litCI "-VPC-".toList r3 with
          | none => none
          | some r4 => plusThen isClassChar (fun r5 => litCI "-PG".toList r5) r4) r2 with
      | none => none
      | some rfinal => some (String.mk (r2.take (r2.length - rfinal.length)))
    else none

/-- Leftmost match of `/vpc\s+([\d-]+-VPC-[\d-]+-PG)/i` on a line. -/
def findFormat1Aux : List Char → Option String
  | [] => none
  | c :: rest =>
    match tryFormat1At (c :: rest) with
    | some v => some v
    | none => findFormat1Aux rest

/-- The body of `/\b([\d-]+-[\d-]+-VPC-[\d-]+-[\d-]+-PG)\b/i` after the
leading boundary, including the trailing `\b` (which must hold for the
chosen backtracking split); returns the rest after the match. -/
def tryFormat2Core (s : List Char) : Option (List Char) :=
  plusThen isClassChar (fun r1 =>
    match lit "-".toList r1 with
    | none => none
    | some r2 => plusThen isClassChar (fun r3 =>
        match litCI "-VPC-".toList r3 with
        | none => none
        | some r4 => plusThen isClassChar (fun r5 =>
            match lit "-".toList r5 with
            | none => none
            | some r6 => plusThen isClassChar (fun r7 =>
                match litCI "-PG".toList r7 with
                | none => none
                | some [] => some ([] : List Char)
                | some (c2 :: t2) =>
                  if isWordChar c2 then none else some (c2 :: t2)) r6) r4) r2) s

/-- Leftmost match of format 2, tracking whether the previous character is a
word character so the leading `\b` can be tested; returns the capture. -/
def findFormat2Aux : Bool → List Char → Option String
  | _, [] => none
  | prevW, c :: rest =>
    let here :=
      if prevW != isWordChar c then
        match tryFormat2Core (c :: rest) with
        | some rf => some (String.mk ((c :: rest).take ((c :: rest).length - rf.length)))
        | none => none
      else none
    match here with
    | some v => some v
    | none => findFormat2Aux (isWordChar c) rest

/-- `line.match(/\b([\d-]+-[\d-]+-VPC-[\d-]+-[\d-]+-PG)\b/i)` capture. -/
def findFormat2 (line : List Char) : Option String := findFormat2Aux false line

/-- The path token one line contributes: format 1 first, format 2 only when
format 1 failed (source lines 38-49). -/
def linePathToken (line : List Char) : Option String :=
  match findFormat1Aux line with
  | some p => some p
  | none => findFormat2 line

/-! ### Data model (source lines 1-21) -/

/-- `interface EndpointData` of the source. -/
structure EndpointData where
  vlan : String
  ip : String
  paths : List String
  pod : String
deriving DecidableEq

/-- `interface PathAttachment` of the source. -/
structure PathAttachment where
  vlan : String
  epg : String
  path : String
  fullPath : String
  pod : String
deriving DecidableEq

/-- `interface ValidationResult` of the source; the status union type
`'allowed' | 'not_allowed'` is modelled as a `String`. -/
structure ValidationResult where
  path : String
  hasActiveEndpoint : Bool
  isVlanAllowed : Bool
  status : String
deriving DecidableEq

/-- JS `Set.add` followed by `Array.from`: append if not already present. -/
def insertPath (l : List String) (p : String) : List String :=
  if p ∈ l then l else l ++ [p]

/-- One iteration of the scan loop of `parseEndpointOutput`: last VLAN match
wins; the line's path token (if any) is added to the set. -/
def scanLine (st : String × List String) (line : List Char) : String × List String :=
  let vlan :=
    match findVlan line with
    | some v => v
    | none => st.1
  let paths :=
    match linePathToken line with
    | some p => insertPath st.2 p
    | none => st.2
  (vlan, paths)

/-- `parseEndpointOutput` (source lines 23-62): scan all lines, then return
the record only when a VLAN and at least one path were found. -/
def parseEndpointOutput (input : String) : Option EndpointData :=
  let st := (toLines input).foldl scanLine ("", [])
  if st.1 ≠ "" ∧ st.2 ≠ [] then some ⟨st.1, "", st.2, ""⟩ else none

/-! ### `parseMoqueryOutput` (source lines 64-121) -/

/-- `dn\s*:\s*` — the case-insensitive opener shared by both dn regexes. -/
def dnOpener (s : List Char) : Option (List Char) :=
  match litCI "dn".toList s with
  | none => none
  | some r1 =>
    match lit ":".toList ((takeWhileSplit isWs r1).2) with
    | none => none
    | some r3 => some ((takeWhileSplit isWs r3).2)

/-- A case-insensitive literal followed by a nonempty `[^\/]+` capture.
Greedy and deterministic: the class cannot cross the `/` that follows. -/
def segCapThen (pre : String) (s : List Char) : Option (List Char × List Char) :=
  match litCI pre.toList s with
  | none => none
  | some r =>
    if ((takeWhileSplit (fun c => c != '/') r).1).isEmpty then none
    else some (takeWhileSplit (fun c => c != '/') r)

/-- `uni\/tn-[^\/]+\/ap-[^\/]+\/epg-([^\/]+)` after the opener: consume the
tenant and ap segments structurally and capture the epg segment. -/
def dnEpgPart (s : List Char) : Option (List Char × List Char) :=
  match dnOpener s with
  | none => none
  | some r4 =>
    match segCapThen "uni/tn-" r4 with
    | none => none
    | some (_, r6) =>
      match segCapThen "/ap-" r6 with
      | none => none
      | some (_, r8) => segCapThen "/epg-" r8

/-- `\/rspathAtt-\[topology\/(pod-\d+)` — the pod capture keeps the original
characters of the `pod-` literal (the regex is `/i`). -/
def podPart (s : List Char) : Option (List Char × List Char) :=
  match litCI "/rspathAtt-[topology/".toList s with
  | none => none
  | some r11 =>
    match litCI "pod-".toList r11 with
    | none => none
    | some r12 =>
      if ((takeWhileSplit Char.isDigit r12).1).isEmpty then none
      else
        some (r11.take (r11.length - ((takeWhileSplit Char.isDigit r12).2).length),
          (takeWhileSplit Char.isDigit r12).2)

/-- `\/pathep-\[([^\]]+)\]\]` — the trailing path-name capture. -/
def pathepPart (s : List Char) : Option (List Char) :=
  match litCI "/pathep-[".toList s with
  | none => none
  | some r16 =>
    if ((takeWhileSplit (fun c => c != ']') r16).1).isEmpty then none
    else
      match litCI "]]".toList ((takeWhileSplit (fun c => c != ']') r16).2) with
      | none => none
      | some _ => some ((takeWhileSplit (fun c => c != ']') r16).1)

/-- One attempt of the VPC-style dn regex (source line 73) anchored at the
current position; returns the captures `(epg, pod, pathName)`. The greedy
classes are deterministic here because each excludes the delimiter that
follows it. -/
def tryVpcDnAt (s : List Char) : Option (String × String × String) :=
  match dnEpgPart s with
  | none => none
  | some (epg, r10) =>
    match podPart r10 with
    | none => none
    | some (pod, r13) =>
      match litCI "/protpaths-".toList r13 with
      | none => none
      | some r14 =>
        if ((takeWhileSplit isClassChar r14).1).isEmpty then none
        else
          match pathepPart ((takeWhileSplit isClassChar r14).2) with
          | none => none
          | some pathName => some (String.mk epg, String.mk pod, String.mk pathName)

/-- One attempt of the single-path dn regex (source line 78); identical to
the VPC-style one except `paths-[\d]+` replaces `protpaths-[\d-]+`. -/
def trySingleDnAt (s : List Char) : Option (String × String × String) :=
  match dnEpgPart s with
  | none => none
  | some (epg, r10) =>
    match podPart r10 with
    | none => none
    | some (pod, r13) =>
      match litCI "/paths-".toList r13 with
      | none => none
      | some r14 =>
        if ((takeWhileSplit Char.isDigit r14).1).isEmpty then none
        else
          match pathepPart ((takeWhileSplit Char.isDigit r14).2) with
          | none => none
          | some pathName => some (String.mk epg, String.mk pod, String.mk pathName)

/-- Leftmost match of the VPC-style dn regex on a line. -/
def findVpcDn : List Char → Option (String × String × String)
  | [] => none
  | c :: rest =>
    match tryVpcDnAt (c :: rest) with
    | some v => some v
    | none => findVpcDn rest

/-- Leftmost match of the single-path dn regex on a line. -/
def findSingleDn : List Char → Option (String × String × String)
  | [] => none
  | c :: rest =>
    match trySingleDnAt (c :: rest) with
    | some v => some v
    | none => findSingleDn rest

/-- One attempt of `/VLAN(\d+)/i` anchored at the current position. -/
def tryVlanEpgAt (s : List Char) : Option String :=
  match litCI "VLAN".toList s with
  | none => none
  | some r =>
    if ((takeWhileSplit Char.isDigit r).1).isEmpty then none
    else some (String.mk ((takeWhileSplit Char.isDigit r).1))

/-- Leftmost match of `/VLAN(\d+)/i`. -/
def findVlanEpg : List Char → Option String
  | [] => none
  | c :: rest =>
    match tryVlanEpgAt (c :: rest) with
    | some v => some v
    | none => findVlanEpg rest

/-- `extractVlanFromEpg` (source lines 212-215), also used at line 88:
digits of `/VLAN(\d+)/i` in the EPG name, or the empty string. -/
def extractVlanFromEpg (epgName : String) : String :=
  match findVlanEpg epgName.toList with
  | some v => v
  | none => ""

/-- One attempt of the case-sensitive `/(\d+)-(\d+)-VPC/` anchored at the
current position; returns the two digit captures. -/
def tryNodePairAt (s : List Char) : Option (String × String) :=
  let d1 := (takeWhileSplit Char.isDigit s).1
  let r1 := (takeWhileSplit Char.isDigit s).2
  if d1.isEmpty then none
  else
    match lit "-".toList r1 with
    | none => none
    | some r2 =>
      let d2 := (takeWhileSplit Char.isDigit r2).1
      let r3 := (takeWhileSplit Char.isDigit r2).2
      if d2.isEmpty then none
      else
        match lit "-VPC".toList r3 with
        | none => none
        | some _ => some (String.mk d1, String.mk d2)

/-- Leftmost match of `/(\d+)-(\d+)-VPC/` (source lines 94 and 185). -/
def findNodePair : List Char → Option (String × String)
  | [] => none
  | c :: rest =>
    match tryNodePairAt (c :: rest) with
    | some v => some v
    | none => findNodePair rest

/-- `/^(\d+)[-\/]/` (source lines 101 and 192): anchored leading digits
followed by a dash or slash. -/
def singleNodeLead (s : List Char) : Option String :=
  let ds := (takeWhileSplit Char.isDigit s).1
  if ds.isEmpty then none
  else
    match (takeWhileSplit Char.isDigit s).2 with
    | c :: _ => if c == '-' || c == '/' then some (String.mk ds) else none
    | [] => none

/-- The per-line body of the `parseMoqueryOutput` loop (source lines 68-117):
skip blank lines, try the VPC-style dn pattern, then the single-path one;
reconstruct `fullPath`; emit only when the VLAN digits are non-empty. -/
def processMoqueryLine (line : List Char) : Option PathAttachment :=
  if trimChars line = [] then none
  else
    match findVpcDn line with
    | some (epg, pod, pathName) =>
      let vlan := extractVlanFromEpg epg
      let fullPath :=
        match findNodePair pathName.toList with
        | some (n1, n2) =>
          pod ++ "/protpaths-" ++ n1 ++ "-" ++ n2 ++ "/pathep-[" ++ pathName ++ "]"
        | none => ""
      if vlan ≠ "" ∧ pathName ≠ "" then some ⟨vlan, epg, pathName, fullPath, pod⟩
      else none
    | none =>
      match findSingleDn line with
      | some (epg, pod, pathName) =>
        let vlan := extractVlanFromEpg epg
        let fullPath :=
          match singleNodeLead pathName.toList with
          | some n => pod ++ "/paths-" ++ n ++ "/pathep-[" ++ pathName ++ "]"
          | none => ""
        if vlan ≠ "" ∧ pathName ≠ "" then some ⟨vlan, epg, pathName, fullPath, pod⟩
        else none
      | none => none

/-- `parseMoqueryOutput` (source lines 64-121). -/
def parseMoqueryOutput (input : String) : List PathAttachment :=
  (toLines input).filterMap processMoqueryLine

/-! ### Normalization, reconciliation, CSV (source lines 123-206) -/

/-- `normalizePathName` (source lines 153-156):
`path.trim().replace(/[\[\]]/g, '').toLowerCase()`. -/
def normalizePathName (path : String) : String :=
  String.mk
    (((trimChars path.toList).filter (fun c => c != '[' && c != ']')).map Char.toLower)

/-- `validateVlanAllowances` (source lines 123-150): filter attachments to
the endpoint's VLAN, collect their normalized paths, and classify each
endpoint path by membership. -/
def validateVlanAllowances (endpointData : EndpointData)
    (pathAttachments : List PathAttachment) : List ValidationResult :=
  let filteredAttachments := pathAttachments.filter (fun att => att.vlan == endpointData.vlan)
  let allowedPaths := filteredAttachments.map (fun att => normalizePathName att.path)
  endpointData.paths.map (fun path =>
    let normalizedPath := normalizePathName path
    let isAllowed := allowedPaths.contains normalizedPath
    { path := path
      hasActiveEndpoint := true
      isVlanAllowed := isAllowed
      status := if isAllowed then "allowed" else "not_allowed" })

/-- The pod-search loop of `generateCSV` (source lines 173-182): the first
attachment whose normalized path equals the target wins; the fallback is
the fixed `"pod-2"`. -/
def podLookup (pathAttachments : List PathAttachment) (normalizedPathName : String) : String :=
  match pathAttachments with
  | [] => "pod-2"
  | att :: rest =>
    if normalizePathName att.path == normalizedPathName then att.pod
    else podLookup rest normalizedPathName

/-- The row builder of `generateCSV` (source lines 171-203). -/
def csvRow (vlan epg : String) (pathAttachments : List PathAttachment)
    (pathName : String) : String :=
  let pod := podLookup pathAttachments (normalizePathName pathName)
  let fullPath :=
    match findNodePair pathName.toList with
    | some (n1, n2) =>
      pod ++ "/protpaths-" ++ n1 ++ "-" ++ n2 ++ "/pathep-[" ++ pathName ++ "]"
    | none =>
      match singleNodeLead pathName.toList with
      | some n => pod ++ "/paths-" ++ n ++ "/pathep-[" ++ pathName ++ "]"
      | none => pod ++ "/paths-XXX/pathep-[" ++ pathName ++ "]"
  vlan ++ "," ++ epg ++ "," ++ fullPath

/-- `generateCSV` (source lines 158-206). The `endpointData` argument is
accepted and unused, as in the source. -/
def generateCSV (vlan epg : String) (results : List ValidationResult)
    (_endpointData : EndpointData) (pathAttachments : List PathAttachment) : String :=
  let header := "VLAN,EPG,PATH"
  let notAllowedPaths := (results.filter (fun r => r.status == "not_allowed")).map (fun r => r.path)
  let rows := notAllowedPaths.map (csvRow vlan epg pathAttachments)
  header ++ "\n" ++ String.intercalate "\n" rows

/-! ## Theorems -/

/-- C9: whenever `parseEndpointOutput` returns a record, the `ip` and `pod`
fields (present in the code's `EndpointData` but absent from the spec's data
model) are both the empty string. -/
theorem parseEndpointOutput_ip_pod_empty (input : String) (d : EndpointData)
    (h : parseEndpointOutput input = some d) : d.ip = "" ∧ d.pod = "" := by
  simp only [parseEndpointOutput] at h
  split at h
  · cases h
    exact ⟨rfl, rfl⟩
  · cases h

/-- Witness for C9 at a concrete input. -/
theorem parseEndpointOutput_ip_pod_empty_witness :
    (⟨"1", "", ["1-VPC-2-PG"], ""⟩ : EndpointData).ip = "" ∧
      (⟨"1", "", ["1-VPC-2-PG"], ""⟩ : EndpointData).pod = "" :=
  parseEndpointOutput_ip_pod_empty "vlan-1 vpc 1-VPC-2-PG" _ (by decide)

/-- The membership test of the reconciler, phrased as the existence of a
matching same-VLAN attachment. -/
theorem allowedPaths_contains_iff (d : EndpointData) (atts : List PathAttachment) (p : String) :
    ((atts.filter (fun att => att.vlan == d.vlan)).map
        (fun att => normalizePathName att.path)).contains (normalizePathName p) = true ↔
      ∃ att ∈ atts, att.vlan = d.vlan ∧
        normalizePathName att.path = normalizePathName p := by
  rw [show ∀ (l : List String) (a : String), l.contains a = l.elem a from fun _ _ => rfl,
    List.elem_iff]
  constructor
  · intro hmem
    rcases List.mem_map.mp hmem with ⟨att, hatt, heq⟩
    rcases List.mem_filter.mp hatt with ⟨hmem2, hbeq⟩
    exact ⟨att, hmem2, beq_iff_eq.mp hbeq, heq⟩
  · rintro ⟨att, hatt, hvlan, hnorm⟩
    exact List.mem_map.mpr ⟨att, List.mem_filter.mpr ⟨hatt, beq_iff_eq.mpr hvlan⟩, hnorm⟩

/-- C10: every `ValidationResult` produced by `validateVlanAllowances` has
`hasActiveEndpoint = true`, and `isVlanAllowed` is `true` exactly when
`status` is `"allowed"`. -/
theorem validateVlanAllowances_flags (d : EndpointData) (atts : List PathAttachment) :
    ∀ r ∈ validateVlanAllowances d atts,
      r.hasActiveEndpoint = true ∧ (r.isVlanAllowed = true ↔ r.status = "allowed") := by
  intro r hr
  simp only [validateVlanAllowances, List.mem_map] at hr
  obtain ⟨p, _, rfl⟩ := hr
  refine ⟨rfl, ?_⟩
  show (List.contains _ _ = true ↔ (if List.contains _ _ = true then "allowed" else "not_allowed") = "allowed")
  by_cases hc :
      ((atts.filter (fun att => att.vlan == d.vlan)).map
        (fun att => normalizePathName att.path)).contains (normalizePathName p) = true
  · rw [if_pos hc]
    exact ⟨fun _ => rfl, fun _ => hc⟩
  · rw [if_neg hc]
    exact ⟨fun h => absurd h hc, fun h => absurd h (by decide)⟩

/-- Witness for C10 at a concrete input. -/
theorem validateVlanAllowances_flags_witness :
    (⟨"p", true, false, "not_allowed"⟩ : ValidationResult).hasActiveEndpoint = true ∧
      ((⟨"p", true, false, "not_allowed"⟩ : ValidationResult).isVlanAllowed = true ↔
        (⟨"p", true, false, "not_allowed"⟩ : ValidationResult).status = "allowed") :=
  validateVlanAllowances_flags ⟨"9", "", ["p"], ""⟩ []
    ⟨"p", true, false, "not_allowed"⟩ (by decide)

/-- C1: `validateVlanAllowances` returns one result per entry of
`EndpointData.paths` (same paths, same order), and a result's status is
`"allowed"` iff some attachment whose `vlan` is string-equal to the
endpoint's `vlan` has a normalized path equal to the normalized endpoint
path; otherwise the status is `"not_allowed"`. -/
theorem validateVlanAllowances_allowed_iff (d : EndpointData) (atts : List PathAttachment) :
    (validateVlanAllowances d atts).map ValidationResult.path = d.paths ∧
    ∀ r ∈ validateVlanAllowances d atts,
      (r.status = "allowed" ↔
        ∃ att ∈ atts, att.vlan = d.vlan ∧
          normalizePathName att.path = normalizePathName r.path) ∧
      (r.status = "allowed" ∨ r.status = "not_allowed") := by
  constructor
  · show List.map _ _ = _
    unfold validateVlanAllowances
    rw [List.map_map]
    exact List.map_id'' (fun p => rfl) d.paths
  · intro r hr
    simp only [validateVlanAllowances, List.mem_map] at hr
    obtain ⟨p, _, rfl⟩ := hr
    show ((if List.contains _ _ = true then "allowed" else "not_allowed") = "allowed" ↔ _) ∧ _
    by_cases hc :
        ((atts.filter (fun att => att.vlan == d.vlan)).map
          (fun att => normalizePathName att.path)).contains (normalizePathName p) = true
    · rw [if_pos hc]
      exact ⟨⟨fun _ => (allowedPaths_contains_iff d atts p).mp hc, fun _ => rfl⟩, Or.inl rfl⟩
    · rw [if_neg hc]
      refine ⟨⟨fun h => absurd h (by decide), fun hex => ?_⟩, Or.inr rfl⟩
      exact absurd ((allowedPaths_contains_iff d atts p).mpr hex) hc

/-- Witness for C1 at a concrete input: the single endpoint path is allowed
because a same-VLAN attachment carries the same normalized path. -/
theorem validateVlanAllowances_allowed_iff_witness :
    (⟨"101-102-VPC-5-6-PG", true, true, "allowed"⟩ : ValidationResult).status = "allowed" ↔
      ∃ att ∈ [(⟨"100", "VLAN100_APP", "[101-102-VPC-5-6-PG]", "fp", "pod-1"⟩ : PathAttachment)],
        att.vlan = (⟨"100", "", ["101-102-VPC-5-6-PG"], ""⟩ : EndpointData).vlan ∧
          normalizePathName att.path =
            normalizePathName (⟨"101-102-VPC-5-6-PG", true, true, "allowed"⟩ : ValidationResult).path :=
  ((validateVlanAllowances_allowed_iff ⟨"100", "", ["101-102-VPC-5-6-PG"], ""⟩
      [⟨"100", "VLAN100_APP", "[101-102-VPC-5-6-PG]", "fp", "pod-1"⟩]).2
    ⟨"101-102-VPC-5-6-PG", true, true, "allowed"⟩ (by decide)).1

/-- A successful `/vlan-(\d+)/i` attempt captures a nonempty digit string. -/
theorem tryVlanAt_ne_empty (s : List Char) (v : String) (h : tryVlanAt s = some v) :
    v ≠ "" := by
  unfold tryVlanAt at h
  split at h
  · exact absurd h (by simp)
  · split at h
    · exact absurd h (by simp)
    · rename_i r heq hne
      injection h with h2
      intro he
      apply hne
      have hnil : (takeWhileSplit Char.isDigit r).1 = [] :=
        congrArg String.data (h2.trans he)
      rw [hnil]
      rfl

/-- A successful `/vlan-(\d+)/i` search captures a nonempty digit string. -/
theorem findVlan_ne_empty (l : List Char) (v : String) (h : findVlan l = some v) :
    v ≠ "" := by
  unfold findVlan at h
  induction l with
  | nil => exact absurd h (by simp [findVlanAux])
  | cons c rest ih =>
    rw [findVlanAux] at h
    cases htry : tryVlanAt (c :: rest) with
    | some w =>
      rw [htry] at h
      injection h with h2
      exact h2 ▸ tryVlanAt_ne_empty _ _ htry
    | none =>
      rw [htry] at h
      exact ih h

/-- The first component of one scan step: last VLAN match wins. -/
theorem scanLine_fst (st : String × List String) (l : List Char) :
    (scanLine st l).1 = match findVlan l with | some v => v | none => st.1 := rfl

/-- The second component of one scan step: the line's token is inserted. -/
theorem scanLine_snd (st : String × List String) (l : List Char) :
    (scanLine st l).2 =
      match linePathToken l with | some p => insertPath st.2 p | none => st.2 := rfl

/-- `getLast?.getD` peels one cons. -/
theorem getLastD_cons (x : String) (xs : List String) (v : String) :
    ((x :: xs).getLast?).getD v = (xs.getLast?).getD x := by
  cases xs with
  | nil => rfl
  | cons y ys =>
    rw [List.getLast?_cons_cons]
    cases hys : (y :: ys).getLast? with
    | none => exact absurd (List.getLast?_eq_none_iff.mp hys) (by simp)
    | some z => rfl

/-- The VLAN accumulated by the scan is the last captured VLAN, if any. -/
theorem foldl_scanLine_fst (lines : List (List Char)) :
    ∀ (v : String) (ps : List String),
      (lines.foldl scanLine (v, ps)).1 = ((lines.filterMap findVlan).getLast?).getD v := by
  induction lines with
  | nil => intro v ps; rfl
  | cons l ls ih =>
    intro v ps
    rw [List.foldl_cons,
      show scanLine (v, ps) l = ((scanLine (v, ps) l).1, (scanLine (v, ps) l).2) from rfl,
      ih]
    cases hf : findVlan l with
    | none =>
      rw [List.filterMap_cons_none hf, scanLine_fst, hf]
    | some x =>
      rw [List.filterMap_cons_some hf, scanLine_fst, hf, getLastD_cons]

/-- Membership in `insertPath`. -/
theorem mem_insertPath (l : List String) (q p : String) :
    p ∈ insertPath l q ↔ p ∈ l ∨ p = q := by
  unfold insertPath
  by_cases h : q ∈ l
  · rw [if_pos h]
    exact ⟨Or.inl, fun hp => hp.elim id (fun he => he ▸ h)⟩
  · rw [if_neg h]
    simp

/-- `insertPath` preserves the absence of duplicates. -/
theorem nodup_insertPath (l : List String) (q : String) (hl : l.Nodup) :
    (insertPath l q).Nodup := by
  unfold insertPath
  by_cases h : q ∈ l
  · rw [if_pos h]; exact hl
  · rw [if_neg h]
    exact hl.append (List.nodup_singleton q)
      (fun a ha hb => (List.mem_singleton.mp hb ▸ h) (List.mem_singleton.mp hb ▸ ha))

/-- The paths accumulated by the scan are exactly the per-line tokens. -/
theorem foldl_scanLine_snd_mem (lines : List (List Char)) :
    ∀ (v : String) (ps : List String) (p : String),
      p ∈ (lines.foldl scanLine (v, ps)).2 ↔
        p ∈ ps ∨ ∃ l ∈ lines, linePathToken l = some p := by
  induction lines with
  | nil => intro v ps p; simp
  | cons l ls ih =>
    intro v ps p
    rw [List.foldl_cons,
      show scanLine (v, ps) l = ((scanLine (v, ps) l).1, (scanLine (v, ps) l).2) from rfl,
      ih]
    cases ht : linePathToken l with
    | none =>
      rw [scanLine_snd, ht]
      simp only [List.mem_cons]
      constructor
      · rintro (hp | ⟨l2, hl2, htok⟩)
        · exact Or.inl hp
        · exact Or.inr ⟨l2, Or.inr hl2, htok⟩
      · rintro (hp | ⟨l2, (rfl | hl2), htok⟩)
        · exact Or.inl hp
        · rw [ht] at htok; cases htok
        · exact Or.inr ⟨l2, hl2, htok⟩
    | some q =>
      rw [scanLine_snd, ht, mem_insertPath]
      simp only [List.mem_cons]
      constructor
      · rintro ((hp | rfl) | ⟨l2, hl2, htok⟩)
        · exact Or.inl hp
        · exact Or.inr ⟨l, Or.inl rfl, ht⟩
        · exact Or.inr ⟨l2, Or.inr hl2, htok⟩
      · rintro (hp | ⟨l2, (rfl | hl2), htok⟩)
        · exact Or.inl (Or.inl hp)
        · rw [ht] at htok
          injection htok with h2
          exact Or.inl (Or.inr h2.symm)
        · exact Or.inr ⟨l2, hl2, htok⟩

/-- The accumulated path list never acquires duplicates. -/
theorem foldl_scanLine_snd_nodup (lines : List (List Char)) :
    ∀ (v : String) (ps : List String), ps.Nodup → (lines.foldl scanLine (v, ps)).2.Nodup := by
  induction lines with
  | nil => intro v ps hp; exact hp
  | cons l ls ih =>
    intro v ps hp
    rw [List.foldl_cons,
      show scanLine (v, ps) l = ((scanLine (v, ps) l).1, (scanLine (v, ps) l).2) from rfl]
    apply ih
    rw [scanLine_snd]
    cases ht : linePathToken l with
    | none => exact hp
    | some q => exact nodup_insertPath ps q hp

/-- C2: `parseEndpointOutput` returns `null` iff no line contains a
`vlan-<digits>` token or no line contains a matching VPC path token; when
both are found it returns a record. (The embedding is a total function, so
the source's no-exception contract is inherent.) -/
theorem parseEndpointOutput_none_iff (input : String) :
    parseEndpointOutput input = none ↔
      (∀ l ∈ toLines input, findVlan l = none) ∨
        (∀ l ∈ toLines input, linePathToken l = none) := by
  simp only [parseEndpointOutput]
  by_cases hc : ((toLines input).foldl scanLine ("", [])).1 ≠ "" ∧
      ((toLines input).foldl scanLine ("", [])).2 ≠ []
  · rw [if_pos hc]
    constructor
    · intro habs; exact absurd habs (by simp)
    · rintro (hall | hall)
      · exfalso
        apply hc.1
        rw [foldl_scanLine_fst, List.filterMap_eq_nil_iff.mpr hall]
        rfl
      · exfalso
        apply hc.2
        rw [List.eq_nil_iff_forall_not_mem]
        intro p hp
        rcases (foldl_scanLine_snd_mem (toLines input) "" [] p).mp hp with h0 | ⟨l, hl, htok⟩
        · exact absurd h0 (by simp)
        · rw [hall l hl] at htok; cases htok
  · rw [if_neg hc]
    refine ⟨fun _ => ?_, fun _ => rfl⟩
    rcases not_and_or.mp hc with h1 | h2
    · rw [not_not] at h1
      left
      cases hfm : (toLines input).filterMap findVlan with
      | nil => exact List.filterMap_eq_nil_iff.mp hfm
      | cons x xs =>
        exfalso
        cases hlast : (x :: xs).getLast? with
        | none => exact absurd (List.getLast?_eq_none_iff.mp hlast) (by simp)
        | some y =>
          have hy : y ∈ (toLines input).filterMap findVlan :=
            hfm ▸ List.mem_of_getLast?_eq_some hlast
          rcases List.mem_filterMap.mp hy with ⟨l, _, hfl⟩
          apply findVlan_ne_empty l y hfl
          have hfold := foldl_scanLine_fst (toLines input) "" []
          rw [hfm, hlast, Option.getD_some] at hfold
          rw [← hfold]
          exact h1
    · rw [not_not] at h2
      right
      intro l hl
      cases ht : linePathToken l with
      | none => rfl
      | some p =>
        exfalso
        have hp : p ∈ ((toLines input).foldl scanLine ("", [])).2 :=
          (foldl_scanLine_snd_mem (toLines input) "" [] p).mpr (Or.inr ⟨l, hl, ht⟩)
        rw [h2] at hp
        exact absurd hp (by simp)

/-- Witness for C2 at a concrete input with a VLAN token but no path token. -/
theorem parseEndpointOutput_none_iff_witness :
    parseEndpointOutput "vlan-7 but no path token" = none :=
  (parseEndpointOutput_none_iff "vlan-7 but no path token").mpr (Or.inr (by decide))

/-- C3: when the `vlan-<digits>` pattern matches on more than one line, the
returned `vlan` is the digits of the last matching line, not the first. -/
theorem parseEndpointOutput_vlan_last (input : String) (d : EndpointData)
    (h : parseEndpointOutput input = some d)
    (hmulti : 2 ≤ ((toLines input).filterMap findVlan).length) :
    ((toLines input).filterMap findVlan).getLast? = some d.vlan := by
  simp only [parseEndpointOutput] at h
  split at h
  · cases h
    cases hlast : ((toLines input).filterMap findVlan).getLast? with
    | none =>
      rw [List.getLast?_eq_none_iff] at hlast
      rw [hlast] at hmulti
      exact absurd hmulti (by simp)
    | some y =>
      have := foldl_scanLine_fst (toLines input) "" []
      rw [hlast] at this
      simp only [Option.getD_some] at this
      rw [show (⟨((toLines input).foldl scanLine ("", [])).1, "",
        ((toLines input).foldl scanLine ("", [])).2, ""⟩ : EndpointData).vlan =
          ((toLines input).foldl scanLine ("", [])).1 from rfl, this]
  · cases h

/-- Witness for C3: with `vlan-1` on the first line and `vlan-2` on the
second, the last match wins. -/
theorem parseEndpointOutput_vlan_last_witness :
    ((toLines "vlan-1 vpc 1-VPC-2-PG\nvlan-2").filterMap findVlan).getLast? =
      some (⟨"2", "", ["1-VPC-2-PG"], ""⟩ : EndpointData).vlan :=
  parseEndpointOutput_vlan_last "vlan-1 vpc 1-VPC-2-PG\nvlan-2"
    ⟨"2", "", ["1-VPC-2-PG"], ""⟩ (by decide) (by decide)

/-- C8: on success, `paths` contains exactly the path tokens matched by the
two per-line path patterns (format 1 taking priority on each line, as in the
source), with duplicates removed by set semantics. -/
theorem parseEndpointOutput_paths_tokens (input : String) (d : EndpointData)
    (h : parseEndpointOutput input = some d) :
    (∀ l ∈ toLines input, ∀ p, linePathToken l = some p → p ∈ d.paths) ∧
    (∀ p ∈ d.paths, ∃ l ∈ toLines input, linePathToken l = some p) ∧
    d.paths.Nodup := by
  simp only [parseEndpointOutput] at h
  split at h
  · cases h
    refine ⟨?_, ?_, ?_⟩
    · intro l hl p htok
      exact (foldl_scanLine_snd_mem (toLines input) "" [] p).mpr (Or.inr ⟨l, hl, htok⟩)
    · intro p hp
      rcases (foldl_scanLine_snd_mem (toLines input) "" [] p).mp hp with h0 | hex
      · exact absurd h0 (by simp)
      · exact hex
    · exact foldl_scanLine_snd_nodup (toLines input) "" [] List.nodup_nil
  · cases h

/-- Witness for C8: a duplicated token appears once in `paths`. -/
theorem parseEndpointOutput_paths_tokens_witness :
    (⟨"3", "", ["1-VPC-2-PG"], ""⟩ : EndpointData).paths.Nodup :=
  (parseEndpointOutput_paths_tokens "vpc 1-VPC-2-PG\nvpc 1-VPC-2-PG\nvlan-3"
    ⟨"3", "", ["1-VPC-2-PG"], ""⟩ (by decide)).2.2

/-- C5 counterexample: with zero not-allowed results `generateCSV` does NOT
return exactly `"VLAN,EPG,PATH"`: the source computes
`header + '\n' + rows.join('\n')`, so a trailing newline remains. -/
theorem generateCSV_header_counterexample :
    generateCSV "100" "VLAN100_APP" [] ⟨"100", "", [], ""⟩ [] ≠ "VLAN,EPG,PATH" := by
  decide

/-- C5 (amended): with zero not-allowed results `generateCSV` returns
exactly the header followed by a single newline, `"VLAN,EPG,PATH\n"`. -/
theorem generateCSV_no_rows (vlan epg : String) (results : List ValidationResult)
    (d : EndpointData) (atts : List PathAttachment)
    (h : results.filter (fun r => r.status == "not_allowed") = []) :
    generateCSV vlan epg results d atts = "VLAN,EPG,PATH\n" := by
  simp only [generateCSV, h, List.map_nil]
  decide

/-- Witness for the amended C5 at a concrete input. -/
theorem generateCSV_no_rows_witness :
    generateCSV "100" "VLAN100_APP" [⟨"p", true, true, "allowed"⟩]
      ⟨"100", "", ["p"], ""⟩ [] = "VLAN,EPG,PATH\n" :=
  generateCSV_no_rows "100" "VLAN100_APP" [⟨"p", true, true, "allowed"⟩]
    ⟨"100", "", ["p"], ""⟩ [] (by decide)

/-- C7: the pod of a not-allowed row comes from the first attachment (the
list unfiltered by VLAN) whose normalized path equals the normalized target,
with the fixed fallback `"pod-2"`; and on the spec's end-to-end example with
no attachments the emitted row reconstructs the fallback-pod path. -/
theorem generateCSV_pod_first_match :
    (∀ (atts : List PathAttachment) (n : String),
      podLookup atts n =
        ((atts.find? (fun a => normalizePathName a.path == n)).map PathAttachment.pod).getD
          "pod-2") ∧
    generateCSV "100" "VLAN100_APP" [⟨"101-102-VPC-5-6-PG", true, false, "not_allowed"⟩]
        ⟨"100", "", ["101-102-VPC-5-6-PG"], ""⟩ [] =
      "VLAN,EPG,PATH\n100,VLAN100_APP,pod-2/protpaths-101-102/pathep-[101-102-VPC-5-6-PG]" := by
  constructor
  · intro atts n
    induction atts with
    | nil => rfl
    | cons a rest ih =>
      by_cases hc : (normalizePathName a.path == n) = true
      · simp [podLookup, List.find?, hc]
      · simp [podLookup, List.find?, hc, ih]
  · decide

/-- A successful `/VLAN(\d+)/i` attempt captures a nonempty digit string. -/
theorem tryVlanEpgAt_ne_empty (s : List Char) (v : String) (h : tryVlanEpgAt s = some v) :
    v ≠ "" := by
  unfold tryVlanEpgAt at h
  split at h
  · exact absurd h (by simp)
  · split at h
    · exact absurd h (by simp)
    · rename_i r heq hne
      injection h with h2
      intro he
      apply hne
      have hnil : (takeWhileSplit Char.isDigit r).1 = [] :=
        congrArg String.data (h2.trans he)
      rw [hnil]
      rfl

/-- A successful `/VLAN(\d+)/i` search captures a nonempty digit string. -/
theorem findVlanEpg_ne_empty (l : List Char) (v : String) (h : findVlanEpg l = some v) :
    v ≠ "" := by
  induction l with
  | nil => exact absurd h (by simp [findVlanEpg])
  | cons c rest ih =>
    rw [findVlanEpg] at h
    cases htry : tryVlanEpgAt (c :: rest) with
    | some w =>
      rw [htry] at h
      injection h with h2
      exact h2 ▸ tryVlanEpgAt_ne_empty _ _ htry
    | none =>
      rw [htry] at h
      exact ih h

/-- The case-insensitive literal `dn` rejects a whitespace first character. -/
theorem litCI_dn_head (c : Char) (cs r : List Char)
    (h : litCI "dn".toList (c :: cs) = some r) : isWs c = false := by
  rw [show "dn".toList = ['d', 'n'] from rfl, litCI] at h
  split at h
  · rename_i hbeq
    cases hws : isWs c
    · rfl
    · exfalso
      simp only [isWs, Char.isWhitespace, Bool.or_eq_true, decide_eq_true_eq] at hws
      rcases hws with ((rfl | rfl) | rfl) | rfl <;> exact absurd hbeq (by decide)
  · cases h

/-- A successful dn opener starts with a non-whitespace character. -/
theorem dnOpener_head (c : Char) (cs r : List Char)
    (h : dnOpener (c :: cs) = some r) : isWs c = false := by
  unfold dnOpener at h
  split at h
  · cases h
  · rename_i r1 heq
    exact litCI_dn_head c cs r1 heq

/-- A successful epg-part match starts with a non-whitespace character. -/
theorem dnEpgPart_head (c : Char) (cs : List Char) (y : List Char × List Char)
    (h : dnEpgPart (c :: cs) = some y) : isWs c = false := by
  unfold dnEpgPart at h
  split at h
  · cases h
  · rename_i r4 heq
    exact dnOpener_head c cs r4 heq

/-- A successful VPC-style dn attempt starts with a non-whitespace char. -/
theorem tryVpcDnAt_head (c : Char) (cs : List Char) (x : String × String × String)
    (h : tryVpcDnAt (c :: cs) = some x) : isWs c = false := by
  unfold tryVpcDnAt at h
  split at h
  · cases h
  · rename_i epg r10 heq
    exact dnEpgPart_head c cs (epg, r10) heq

/-- A line on which the VPC-style dn regex matches is not all whitespace. -/
theorem findVpcDn_not_all_ws (l : List Char) (x : String × String × String)
    (h : findVpcDn l = some x) : ∃ c ∈ l, isWs c = false := by
  induction l with
  | nil => exact absurd h (by simp [findVpcDn])
  | cons c rest ih =>
    rw [findVpcDn] at h
    cases htry : tryVpcDnAt (c :: rest) with
    | some y => exact ⟨c, List.mem_cons_self c rest, tryVpcDnAt_head c rest y htry⟩
    | none =>
      rw [htry] at h
      rcases ih h with ⟨c2, hc2, hws⟩
      exact ⟨c2, List.mem_cons_of_mem c hc2, hws⟩

/-- If trimming empties a char list, every character was whitespace. -/
theorem all_ws_of_trimChars_eq_nil (l : List Char) (h : trimChars l = []) :
    ∀ c ∈ l, isWs c = true := by
  unfold trimChars at h
  rw [List.reverse_eq_nil_iff, List.dropWhile_eq_nil_iff] at h
  intro c hc
  rcases List.mem_append.mp ((List.takeWhile_append_dropWhile isWs l).symm ▸ hc) with ht | hd
  · exact List.mem_takeWhile_imp ht
  · exact h c (List.mem_reverse.mpr hd)

/-- The path-name capture of the dn regexes is nonempty (`[^\]]+`). -/
theorem pathepPart_ne_nil (s pn : List Char) (h : pathepPart s = some pn) : pn ≠ [] := by
  unfold pathepPart at h
  split at h
  · cases h
  · rename_i r16 heq
    split at h
    · cases h
    · rename_i hne
      split at h
      · cases h
      · injection h with h2
        intro he
        apply hne
        rw [h2, he]
        rfl

/-- A successful VPC-style dn attempt returns a nonempty path name. -/
theorem tryVpcDnAt_pathName_ne (s : List Char) (epg pod pathName : String)
    (h : tryVpcDnAt s = some (epg, pod, pathName)) : pathName ≠ "" := by
  unfold tryVpcDnAt at h
  split at h
  · cases h
  · split at h
    · cases h
    · split at h
      · cases h
      · split at h
        · cases h
        · split at h
          · cases h
          · rename_i pn heqp
            injection h with h2
            injection h2 with ha hb
            injection hb with hb1 hb2
            intro he
            exact pathepPart_ne_nil _ _ heqp (congrArg String.data (hb2.trans he))

/-- A successful VPC-style dn search returns a nonempty path name. -/
theorem findVpcDn_pathName_ne (l : List Char) (epg pod pathName : String)
    (h : findVpcDn l = some (epg, pod, pathName)) : pathName ≠ "" := by
  induction l with
  | nil => exact absurd h (by simp [findVpcDn])
  | cons c rest ih =>
    rw [findVpcDn] at h
    cases htry : tryVpcDnAt (c :: rest) with
    | some y =>
      rw [htry] at h
      injection h with h2
      exact tryVpcDnAt_pathName_ne (c :: rest) epg pod pathName (h2 ▸ htry)
    | none =>
      rw [htry] at h
      exact ih h

/-- C6 counterexample: on a VPC-style line whose path name `x1-2-VPC` has NO
`<digits>-<digits>-VPC` prefix (the anchored attempt fails), the record is
still emitted with a non-empty reconstructed `fullPath`, because the code's
`/(\d+)-(\d+)-VPC/` is unanchored and matches in the middle. -/
theorem parseMoqueryOutput_vpc_counterexample :
    parseMoqueryOutput
        "dn: uni/tn-T/ap-A/epg-VLAN100/rspathAtt-[topology/pod-1/protpaths-1-2/pathep-[x1-2-VPC]]" =
      [⟨"100", "VLAN100", "x1-2-VPC", "pod-1/protpaths-1-2/pathep-[x1-2-VPC]", "pod-1"⟩] ∧
    tryNodePairAt "x1-2-VPC".toList = none := by
  decide

/-- C6 (amended): on a line matching the VPC-style dn pattern, a record is
emitted iff the captured EPG name contains `VLAN<digits>`; the emitted
record carries the captures, and its `fullPath` is
`<pod>/protpaths-<n1>-<n2>/pathep-[<pathName>]` exactly when the unanchored
pattern `<digits>-<digits>-VPC` matches anywhere in the path name (the
leftmost match supplying `n1`, `n2`), the empty string otherwise. -/
theorem parseMoqueryOutput_vpc_line (line : List Char) (epg pod pathName : String)
    (h : findVpcDn line = some (epg, pod, pathName)) :
    ((processMoqueryLine line).isSome = true ↔ (findVlanEpg epg.toList).isSome = true) ∧
    (∀ att, processMoqueryLine line = some att →
      att.epg = epg ∧ att.path = pathName ∧ att.pod = pod ∧
      att.vlan = extractVlanFromEpg epg ∧
      (∀ n1 n2, findNodePair pathName.toList = some (n1, n2) →
        att.fullPath =
          pod ++ "/protpaths-" ++ n1 ++ "-" ++ n2 ++ "/pathep-[" ++ pathName ++ "]") ∧
      (findNodePair pathName.toList = none → att.fullPath = "")) := by
  have hblank : ¬ trimChars line = [] := by
    intro htrim
    rcases findVpcDn_not_all_ws line _ h with ⟨c, hc, hws⟩
    rw [all_ws_of_trimChars_eq_nil line htrim c hc] at hws
    cases hws
  have hpn : pathName ≠ "" := findVpcDn_pathName_ne line epg pod pathName h
  have hproc : processMoqueryLine line =
      (if extractVlanFromEpg epg ≠ "" ∧ pathName ≠ "" then
        some ⟨extractVlanFromEpg epg, epg, pathName,
          (match findNodePair pathName.toList with
           | some (n1, n2) =>
             pod ++ "/protpaths-" ++ n1 ++ "-" ++ n2 ++ "/pathep-[" ++ pathName ++ "]"
           | none => ""), pod⟩
       else none) := by
    unfold processMoqueryLine
    rw [if_neg hblank, h]
  constructor
  · by_cases hv : extractVlanFromEpg epg ≠ ""
    · rw [hproc, if_pos ⟨hv, hpn⟩]
      simp only [Option.isSome_some, true_iff]
      cases hfe : findVlanEpg epg.toList with
      | none =>
        exfalso
        apply hv
        unfold extractVlanFromEpg
        rw [hfe]
      | some w => rfl
    · rw [hproc, if_neg (fun hand => hv hand.1)]
      constructor
      · intro habs
        exact absurd habs (by simp)
      · intro habs
        exfalso
        cases hfe : findVlanEpg epg.toList with
        | none =>
          rw [hfe] at habs
          exact absurd habs (by simp)
        | some w =>
          apply hv
          unfold extractVlanFromEpg
          rw [hfe]
          exact findVlanEpg_ne_empty _ _ hfe
  · intro att hatt
    rw [hproc] at hatt
    by_cases hcond : extractVlanFromEpg epg ≠ "" ∧ pathName ≠ ""
    · rw [if_pos hcond] at hatt
      injection hatt with h2
      cases h2
      refine ⟨rfl, rfl, rfl, rfl, ?_, ?_⟩
      · intro n1 n2 hnp
        show (match findNodePair pathName.toList with
          | some (n1, n2) =>
            pod ++ "/protpaths-" ++ n1 ++ "-" ++ n2 ++ "/pathep-[" ++ pathName ++ "]"
          | none => "") = _
        rw [hnp]
      · intro hnp
        show (match findNodePair pathName.toList with
          | some (n1, n2) =>
            pod ++ "/protpaths-" ++ n1 ++ "-" ++ n2 ++ "/pathep-[" ++ pathName ++ "]"
          | none => "") = _
        rw [hnp]
    · rw [if_neg hcond] at hatt
      cases hatt

/-- Witness for the amended C6 on the spec's example line. -/
theorem parseMoqueryOutput_vpc_line_witness :
    (processMoqueryLine
        "dn: uni/tn-X/ap-Y/epg-VLAN100_APP/rspathAtt-[topology/pod-1/protpaths-101-102/pathep-[101-102-VPC-5-6-PG]]".toList).isSome =
      true ↔ (findVlanEpg "VLAN100_APP".toList).isSome = true :=
  (parseMoqueryOutput_vpc_line
    "dn: uni/tn-X/ap-Y/epg-VLAN100_APP/rspathAtt-[topology/pod-1/protpaths-101-102/pathep-[101-102-VPC-5-6-PG]]".toList
    "VLAN100_APP" "pod-1" "101-102-VPC-5-6-PG" (by decide)).1

/-! ### Character-level facts for normalization (C4) -/

/-- `Char.ofNat` of a small codepoint keeps its value. -/
theorem char_toNat_ofNat_lt (n : Nat) (h : n < 55296) : (Char.ofNat n).toNat = n := by
  rw [Char.ofNat, dif_pos (Or.inl h)]
  rfl

/-- `Char.toLower` on a basic-latin capital adds 32. -/
theorem toLower_of_upper (c : Char) (h : c.toNat ≥ 65 ∧ c.toNat ≤ 90) :
    c.toLower = Char.ofNat (c.toNat + 32) := by
  show (if c.toNat ≥ 65 ∧ c.toNat ≤ 90 then Char.ofNat (c.toNat + 32) else c) =
    Char.ofNat (c.toNat + 32)
  rw [if_pos h]

/-- `Char.toLower` fixes everything that is not a basic-latin capital. -/
theorem toLower_eq_self (c : Char) (h : ¬(c.toNat ≥ 65 ∧ c.toNat ≤ 90)) :
    c.toLower = c := by
  show (if c.toNat ≥ 65 ∧ c.toNat ≤ 90 then Char.ofNat (c.toNat + 32) else c) = c
  rw [if_neg h]

/-- Lowercasing is idempotent on characters. -/
theorem toLower_toLower (c : Char) : c.toLower.toLower = c.toLower := by
  by_cases h : c.toNat ≥ 65 ∧ c.toNat ≤ 90
  · rw [toLower_of_upper c h]
    apply toLower_eq_self
    rw [char_toNat_ofNat_lt (c.toNat + 32) (by omega)]
    omega
  · rw [toLower_eq_self c h]
    exact toLower_eq_self c h

/-- Characters with different codepoints differ. -/
theorem char_ne_of_toNat_ne (a b : Char) (h : a.toNat ≠ b.toNat) : a ≠ b :=
  fun he => h (congrArg Char.toNat he)

/-- Codepoints at 33 and above are not whitespace. -/
theorem isWs_eq_false_of_ge (d : Char) (hlo : 33 ≤ d.toNat) : isWs d = false := by
  cases hws : isWs d
  · rfl
  · exfalso
    simp only [isWs, Char.isWhitespace, Bool.or_eq_true, decide_eq_true_eq] at hws
    rcases hws with ((rfl | rfl) | rfl) | rfl <;> exact absurd hlo (by decide)

/-- Lowercasing does not change whether a character is whitespace. -/
theorem isWs_toLower (c : Char) : isWs c.toLower = isWs c := by
  by_cases h : c.toNat ≥ 65 ∧ c.toNat ≤ 90
  · rw [toLower_of_upper c h,
      isWs_eq_false_of_ge _ (by rw [char_toNat_ofNat_lt (c.toNat + 32) (by omega)]; omega),
      isWs_eq_false_of_ge c (by omega)]
  · rw [toLower_eq_self c h]

/-- Lowercasing does not change whether a character is a square bracket. -/
theorem noBracket_toLower (c : Char) :
    ((c.toLower != '[') && (c.toLower != ']')) = ((c != '[') && (c != ']')) := by
  by_cases h : c.toNat ≥ 65 ∧ c.toNat ≤ 90
  · rw [toLower_of_upper c h]
    have ht : (Char.ofNat (c.toNat + 32)).toNat = c.toNat + 32 :=
      char_toNat_ofNat_lt (c.toNat + 32) (by omega)
    have l1 : (Char.ofNat (c.toNat + 32) != '[') = true :=
      bne_iff_ne.mpr (char_ne_of_toNat_ne _ _ (by rw [ht]; show c.toNat + 32 ≠ 91; omega))
    have l2 : (Char.ofNat (c.toNat + 32) != ']') = true :=
      bne_iff_ne.mpr (char_ne_of_toNat_ne _ _ (by rw [ht]; show c.toNat + 32 ≠ 93; omega))
    have r1 : (c != '[') = true :=
      bne_iff_ne.mpr (char_ne_of_toNat_ne _ _ (by show c.toNat ≠ 91; omega))
    have r2 : (c != ']') = true :=
      bne_iff_ne.mpr (char_ne_of_toNat_ne _ _ (by show c.toNat ≠ 93; omega))
    rw [l1, l2, r1, r2]
  · rw [toLower_eq_self c h]

/-- Trimming commutes with lowercasing. -/
theorem trimChars_map_toLower (x : List Char) :
    trimChars (x.map Char.toLower) = (trimChars x).map Char.toLower := by
  have hws : (isWs ∘ Char.toLower) = isWs := funext isWs_toLower
  unfold trimChars
  rw [List.dropWhile_map, hws, ← List.map_reverse, List.dropWhile_map, hws, ← List.map_reverse]

/-- Trimming only removes characters already present. -/
theorem mem_of_mem_trimChars (x : List Char) (c : Char) (h : c ∈ trimChars x) : c ∈ x := by
  unfold trimChars at h
  rw [List.mem_reverse] at h
  have h2 := List.dropWhile_subset isWs h
  rw [List.mem_reverse] at h2
  exact List.dropWhile_subset isWs h2

/-- A second pass of strip-brackets-and-lowercase only trims the whitespace
that the first bracket removal may have exposed at the ends. -/
theorem norm_list_again (x : List Char) :
    ((trimChars ((x.filter (fun c => c != '[' && c != ']')).map Char.toLower)).filter
        (fun c => c != '[' && c != ']')).map Char.toLower =
      trimChars ((x.filter (fun c => c != '[' && c != ']')).map Char.toLower) := by
  rw [trimChars_map_toLower, List.filter_map,
    show ((fun c => c != '[' && c != ']') ∘ Char.toLower) = (fun c => c != '[' && c != ']')
      from funext noBracket_toLower]
  have hall : (trimChars (x.filter (fun c => c != '[' && c != ']'))).filter
      (fun c => c != '[' && c != ']') =
      trimChars (x.filter (fun c => c != '[' && c != ']')) := by
    apply List.filter_eq_self.mpr
    intro a ha
    have hma : a ∈ x.filter (fun c => c != '[' && c != ']') :=
      mem_of_mem_trimChars (x.filter (fun c => c != '[' && c != ']')) a ha
    exact (List.mem_filter.mp hma).2
  rw [hall, List.map_map,
    show (Char.toLower ∘ Char.toLower) = Char.toLower from funext toLower_toLower]

/-- C4 counterexample: normalization is NOT idempotent. Removing the
brackets of `"[ x ]"` exposes spaces that the first pass's trim has already
run, so a second application trims further: `normalize("[ x ]") = " x "`
but `normalize(normalize("[ x ]")) = "x"`. -/
theorem normalizePathName_not_idem :
    normalizePathName (normalizePathName "[ x ]") ≠ normalizePathName "[ x ]" := by
  decide

/-- C4 (amended): a second normalization pass exactly trims the normalized
string — `normalize (normalize p) = trim (normalize p)` — so normalization
is idempotent precisely on inputs whose normalized form carries no leading
or trailing whitespace; the bracket/case invariance
`normalize("[Eth1/2]") = normalize("eth1/2")` holds as stated. -/
theorem normalizePathName_second_pass (p : String) :
    normalizePathName (normalizePathName p) =
      String.mk (trimChars (normalizePathName p).toList) ∧
    (trimChars (normalizePathName p).toList = (normalizePathName p).toList →
      normalizePathName (normalizePathName p) = normalizePathName p) ∧
    normalizePathName "[Eth1/2]" = normalizePathName "eth1/2" := by
  have key : normalizePathName (normalizePathName p) =
      String.mk (trimChars (normalizePathName p).toList) :=
    congrArg String.mk (norm_list_again (trimChars p.toList))
  refine ⟨key, fun htrim => ?_, by decide⟩
  rw [key, htrim]
  exact String.ext rfl

/-- Witness for the amended C4: on `"[Eth1/2]"` the normalized form is
already trimmed, so normalization is idempotent there. -/
theorem normalizePathName_second_pass_witness :
    normalizePathName (normalizePathName "[Eth1/2]") = normalizePathName "[Eth1/2]" :=
  (normalizePathName_second_pass "[Eth1/2]").2.1 (by decide)

end Apic
